import Mathlib

/-
Verification of the path-pattern compiler/matcher and trigger-manifest
assembly of the firebase-functions v2 Realtime Database provider, plus its
structured logger.

The provider implementation itself (PathPattern, makeParams, getOpts,
makeEndpoint, onChangedOperation / onOperation / onValue*) is not part of
the sources available here; only its test suite
(spec/v2/providers/database.spec.ts) is. Those operations are therefore
modelled from the specification (pattern compilation, positional matching
with a single multi-segment token, options normalization, endpoint
assembly), and checked against the concrete behaviours pinned down by the
test suite. The structured logger (entryFromArgs, debug/log/info/warn/error)
is embedded directly from its source file.

Strings are modelled as lists of characters so that splitting on the path
separator and joining with it are ordinary structural recursions.
-/

namespace FirebaseDB

/-- Character strings, modelled as lists of characters. -/
abbrev Str := List Char

/-- Conversion from Lean string literals, used for concrete instances. -/
def lit (s : String) : Str := s.toList

/-! ## Splitting on the path separator and joining with it -/

/-- Accumulating splitter: splits the remaining characters on the slash
separator, with the (reversed) pending component in the accumulator.
Mirrors the behaviour of JavaScript `String.prototype.split('/')`. -/
def splitAux : List Char → List Char → List Str
  | [], acc => [acc.reverse]
  | c :: cs, acc => if c = '/' then acc.reverse :: splitAux cs [] else splitAux cs (c :: acc)

/-- Split a string into its slash-separated components. -/
def splitOnSlash (cs : Str) : List Str := splitAux cs []

/-- Tail of a slash-joined string: each further component is preceded by
the separator. -/
def joinTail : List Str → Str
  | [] => []
  | t :: ts => '/' :: (t ++ joinTail ts)

/-- Join components with the slash separator. -/
def joinSlash : List Str → Str
  | [] => []
  | t :: ts => t ++ joinTail ts

/-- Remove leading and trailing slash separators. -/
def trimSlashes (cs : Str) : Str :=
  ((cs.dropWhile (fun c => c = '/')).reverse.dropWhile (fun c => c = '/')).reverse

/-- One unit of a compiled pattern: literal text, single-component
wildcard, named single-component capture, multi-component wildcard, or
named multi-component capture. -/
inductive Segment where
  | literal (s : Str)
  | wildcard
  | capture (name : Str)
  | multiWildcard
  | multiCapture (name : Str)
deriving DecidableEq

/-- Whether a segment is a multi-segment token. -/
def isMulti : Segment → Bool
  | Segment.multiWildcard => true
  | Segment.multiCapture _ => true
  | _ => false

/-- Render one segment back into its template syntax. -/
def segToStr : Segment → Str
  | Segment.literal s => s
  | Segment.wildcard => ['*']
  | Segment.multiWildcard => ['*', '*']
  | Segment.capture n => '{' :: n ++ ['}']
  | Segment.multiCapture n => '{' :: n ++ ['=', '*', '*', '}']

/-- Modelled from the spec: token classification of the path-pattern
compiler (the PathPattern source is not available here). A raw token is
classified by exact syntax: a single star is a wildcard, a double star a
multi-segment wildcard, a braced name a capture, a braced name ending in
the multi-segment marker a multi-segment capture, anything else a literal;
a token opening a brace without closing it is a compile-time error. -/
def classifyToken (t : Str) : Except Str Segment :=
  if t = ['*'] then Except.ok Segment.wildcard
  else if t = ['*', '*'] then Except.ok Segment.multiWildcard
  else if t.head? = some '{' then
    if t.getLast? = some '}' then
      if ((t.drop 1).dropLast).drop (((t.drop 1).dropLast).length - 3) = ['=', '*', '*'] then
        Except.ok (Segment.multiCapture (((t.drop 1).dropLast).take (((t.drop 1).dropLast).length - 3)))
      else Except.ok (Segment.capture ((t.drop 1).dropLast))
    else Except.error (lit "unterminated capture in template: " ++ t)
  else Except.ok (Segment.literal t)

/-- Classify every token of a template, failing on the first bad token. -/
def classifyAll : List Str → Except Str (List Segment)
  | [] => Except.ok []
  | t :: ts =>
    match classifyToken t, classifyAll ts with
    | Except.ok s, Except.ok ss => Except.ok (s :: ss)
    | Except.error e, _ => Except.error e
    | _, Except.error e => Except.error e

/-- Whether a raw token is a multi-segment token: it classifies
successfully as a multi-segment wildcard or capture. -/
def isMultiTok (t : Str) : Bool :=
  match classifyToken t with
  | Except.ok s => isMulti s
  | Except.error _ => false

/-- A compiled path pattern: its ordered segments and its canonical
(slash-trimmed) source string. -/
structure PathPattern where
  segments : List Segment
  source : Str
deriving DecidableEq

/-- Error message for a template holding two multi-segment tokens. -/
def multipleMultiErr : Str := lit "more than one multi-segment token in template"

/-- Modelled from the spec: the path-pattern compiler (the PathPattern
source is not available here). Trims leading and trailing separators,
splits on the separator, classifies each token, and rejects templates
with more than one multi-segment token. -/
def compile (source : Str) : Except Str PathPattern :=
  match classifyAll (splitOnSlash (trimSlashes source)) with
  | Except.error e => Except.error e
  | Except.ok segs =>
    if 2 ≤ segs.countP isMulti then Except.error multipleMultiErr
    else Except.ok ⟨segs, trimSlashes source⟩

/-- Render a compiled pattern back into template syntax. -/
def PathPattern.toStr (p : PathPattern) : Str := joinSlash (p.segments.map segToStr)


/-! ## Matching -/

/-- A parameter map: capture names with their matched values, in the order
the captures were produced; a later binding for a name shadows an earlier
one (last write wins, as in a JavaScript object spread). -/
abbrev ParamMap := List (Str × Str)

/-- Look a capture name up in a parameter map; the last binding wins. -/
def pmGet (m : ParamMap) (k : Str) : Option Str :=
  (m.reverse.find? (fun pr => pr.1 == k)).map (fun pr => pr.2)

/-- The slash-separated components of a candidate path, leading and
trailing separators trimmed. -/
def components (cand : Str) : List Str := splitOnSlash (trimSlashes cand)

/-- Positional matching of a run of non-multi segments against candidate
components: a literal must equal its component, a wildcard consumes one
component, a capture consumes one component and records it. Fails when
the counts differ. -/
def matchNonMulti : List Segment → List Str → Option ParamMap
  | [], [] => some []
  | Segment.literal l :: segs, c :: cs =>
    if l = c then matchNonMulti segs cs else none
  | Segment.wildcard :: segs, _ :: cs => matchNonMulti segs cs
  | Segment.capture n :: segs, c :: cs =>
    (matchNonMulti segs cs).map (fun m => (n, c) :: m)
  | _, _ => none

/-- The capture bindings a run of non-multi segments produces against the
components it is aligned with positionally. -/
def capturesOf : List Segment → List Str → ParamMap
  | Segment.capture n :: segs, c :: cs => (n, c) :: capturesOf segs cs
  | _ :: segs, _ :: cs => capturesOf segs cs
  | _, _ => []

/-- Position of the first multi-segment token of a pattern, if any. -/
def findMultiIdx : List Segment → Option Nat
  | [] => none
  | s :: rest => if isMulti s then some 0 else (findMultiIdx rest).map (fun i => i + 1)

/-- Modelled from the spec: matching when the pattern holds a multi-segment
token at position i (the PathPattern source is not available here). The
multi token's span k is computed from the total component count; the match
fails when the candidate has fewer components than there are fixed
segments, segments before i are matched against components [0, i), the
multi token consumes components [i, i+k) (joined with the separator and
recorded when it is a named multi capture), and segments after i are
matched against components [i+k, C). -/
def matchWithMultiAt (segs : List Segment) (i : Nat) (comps : List Str) : Option ParamMap :=
  if comps.length < (segs.take i).length + (segs.drop (i + 1)).length then none
  else
    match matchNonMulti (segs.take i) (comps.take i),
          matchNonMulti (segs.drop (i + 1))
            (comps.drop (i + (comps.length - ((segs.take i).length + (segs.drop (i + 1)).length)))),
          segs[i]? with
    | some m1, some m2, some (Segment.multiCapture n) =>
        some (m1 ++ [(n, joinSlash ((comps.drop i).take
          (comps.length - ((segs.take i).length + (segs.drop (i + 1)).length))))] ++ m2)
    | some m1, some m2, _ => some (m1 ++ m2)
    | _, _, _ => none

/-- Modelled from the spec: the pattern matcher (the PathPattern source is
not available here). Splits the candidate on the separator and matches it
against the pattern's segments, returning the captured parameters on
success and none on a non-match. -/
def pmatch (p : PathPattern) (cand : Str) : Option ParamMap :=
  match findMultiIdx p.segments with
  | none => matchNonMulti p.segments (components cand)
  | some i => matchWithMultiAt p.segments i (components cand)

/-- The parameter-map entry contributed by the multi-segment token at
position i of a pattern when its span is k: a named multi capture records
the joined consumed components, a multi wildcard records nothing. -/
def multiSegmentEntry (segs : List Segment) (i : Nat) (comps : List Str) (k : Nat) : ParamMap :=
  match segs[i]? with
  | some (Segment.multiCapture n) => [(n, joinSlash ((comps.drop i).take k))]
  | _ => []

/-- Positional agreement of a run of non-multi segments with a run of
candidate components: same count, and every literal segment equals the
component it is aligned with. -/
def nonMultiAgrees (segs : List Segment) (comps : List Str) : Prop :=
  comps.length = segs.length ∧
  ∀ pr ∈ segs.zip comps, ∀ l, pr.1 = Segment.literal l → pr.2 = l

/-! ## Raw events and parameter extraction -/

/-- The fields of a raw Realtime Database cloud event this core reads:
the full key path and the logical instance identifier (the payload and
envelope metadata are not consumed by parameter extraction). -/
structure RawRTDBCloudEvent where
  ref : Str
  inst : Str

/-- Modelled from the spec: parameter extraction for one event (the
database provider source is not available here; its test suite pins this
behaviour). The event's ref is matched against the resource pattern and
its instance against the instance pattern, and the two capture maps are
merged with the instance-derived captures applied after the
resource-derived ones. A resource non-match is a defensive error. -/
def makeParams (ev : RawRTDBCloudEvent) (path instancePat : PathPattern) :
    Except Str ParamMap :=
  match pmatch path ev.ref with
  | none => Except.error (lit "no match for event resource path")
  | some rm => Except.ok (rm ++ ((pmatch instancePat ev.inst).getD []))

/-! ## Options normalization -/

/-- A region option: either a single region name or a sequence of them. -/
inductive RegionSpec where
  | one (r : Str)
  | many (rs : List Str)

/-- An opaque pass-through option value (compute class, instance-count
bounds, and so on); this core copies such fields unexamined. -/
inductive OptVal where
  | s (v : Str)
  | n (v : Int)
  | b (v : Bool)

/-- The deployment-configuration fields consumed by endpoint assembly:
the region option, the label map, and all remaining pass-through fields. -/
structure DbOpts where
  region : Option RegionSpec
  labels : Option (List (Str × Str))
  extra : List (Str × OptVal)

/-- The options-object input shape: a ref path, an optional instance
pattern, and the remaining deployment-configuration fields. -/
structure RefOptions where
  ref : Str
  inst : Option Str
  opts : DbOpts

/-- The runtime shapes a reference-or-options argument can take: a bare
path string, an options object, or anything else (an invalid shape,
carrying a description of what was received). -/
inductive ReferenceOrOpts where
  | path (s : Str)
  | options (o : RefOptions)
  | invalid (shape : Str)

/-- The canonical normalized options record. -/
structure NormalizedOptions where
  path : Str
  inst : Str
  opts : DbOpts

/-- The empty deployment-configuration record. -/
def emptyOpts : DbOpts := ⟨none, none, []⟩

/-- Modelled from the spec: options normalization (the database provider
source is not available here; its test suite pins this behaviour). A bare
string is the resource path with the instance defaulting to a single
wildcard; an object contributes its ref (slash-trimmed), its instance
(trimmed, defaulted), and every remaining field verbatim; any other shape
is a configuration error naming the received shape. -/
def getOpts : ReferenceOrOpts → Except Str NormalizedOptions
  | ReferenceOrOpts.path s => Except.ok ⟨trimSlashes s, ['*'], emptyOpts⟩
  | ReferenceOrOpts.options o =>
      Except.ok ⟨trimSlashes o.ref, trimSlashes (o.inst.getD ['*']), o.opts⟩
  | ReferenceOrOpts.invalid shape =>
      Except.error (lit "ReferenceOptions must be a string or an object, got: " ++ shape)

/-! ## Endpoint assembly -/

/-- The event-trigger fragment of a deployment manifest. -/
structure EventTrigger where
  eventType : Str
  eventFilters : List (Str × Str)
  eventFilterPathPatterns : List (Str × Str)
  retry : Bool

/-- The deployment-time endpoint manifest fragment. -/
structure Endpoint where
  platform : Str
  region : Option (List Str)
  labels : List (Str × Str)
  extra : List (Str × OptVal)
  eventTrigger : EventTrigger

/-- Whether a raw pattern source contains routing syntax: a star or a
brace character. -/
def hasRoutingSyntax (s : Str) : Bool := s.any (fun c => c == '*' || c == '{' || c == '}')

/-- Look a field name up in a string-to-string manifest map. -/
def lookupField (m : List (Str × Str)) (k : Str) : Option Str :=
  (m.find? (fun pr => pr.1 == k)).map (fun pr => pr.2)

/-- Modelled from the spec: endpoint-manifest assembly (the database
provider source is not available here; its test suite pins this
behaviour). The platform tag is fixed, a single region string is wrapped
into a one-element sequence, labels default to the empty map, the other
option fields pass through, and the instance pattern lands in exactly one
of the exact-match filters (a literal instance) or the path-pattern
filters (routing syntax); the resource pattern is always a path-pattern
filter, and retry is fixed false. -/
def makeEndpoint (eventType : Str) (opts : DbOpts) (path instancePat : PathPattern) :
    Endpoint :=
  ⟨lit "gcfv2",
    (match opts.region with
      | none => none
      | some (RegionSpec.one r) => some [r]
      | some (RegionSpec.many rs) => some rs),
    opts.labels.getD [],
    opts.extra,
    ⟨eventType,
      (if hasRoutingSyntax instancePat.source then []
        else [(lit "instance", instancePat.source)]),
      (lit "ref", path.source) ::
        (if hasRoutingSyntax instancePat.source then [(lit "instance", instancePat.source)]
          else []),
      false⟩⟩

/-- Event type constant for written events. -/
def writtenEventType : Str := lit "google.firebase.database.ref.v1.written"

/-- Event type constant for created events. -/
def createdEventType : Str := lit "google.firebase.database.ref.v1.created"

/-- Event type constant for updated events. -/
def updatedEventType : Str := lit "google.firebase.database.ref.v1.updated"

/-- Event type constant for deleted events. -/
def deletedEventType : Str := lit "google.firebase.database.ref.v1.deleted"

/-- Modelled from the spec: the endpoint-manifest side of the change-event
handler factory (the database provider source is not available here; its
test suite pins this behaviour). Normalizes the input, compiles the
resource and instance patterns, and assembles the endpoint manifest. -/
def onChangedOperation (eventType : Str) (input : ReferenceOrOpts) : Except Str Endpoint :=
  match getOpts input with
  | Except.error e => Except.error e
  | Except.ok no =>
    match compile no.path, compile no.inst with
    | Except.ok pp, Except.ok ip => Except.ok (makeEndpoint eventType no.opts pp ip)
    | Except.error e, _ => Except.error e
    | _, Except.error e => Except.error e

/-- Modelled from the spec: the endpoint-manifest side of the single-kind
handler factory; it assembles its endpoint exactly as the change-event
factory does (the factories differ only in runtime data shaping). -/
def onOperation (eventType : Str) (input : ReferenceOrOpts) : Except Str Endpoint :=
  onChangedOperation eventType input

/-- Modelled from the spec: the endpoint manifest of an onValueWritten
handler. -/
def onValueWritten (input : ReferenceOrOpts) : Except Str Endpoint :=
  onChangedOperation writtenEventType input

/-- Modelled from the spec: the endpoint manifest of an onValueCreated
handler. -/
def onValueCreated (input : ReferenceOrOpts) : Except Str Endpoint :=
  onOperation createdEventType input

/-- Modelled from the spec: the endpoint manifest of an onValueUpdated
handler. -/
def onValueUpdated (input : ReferenceOrOpts) : Except Str Endpoint :=
  onChangedOperation updatedEventType input

/-- Modelled from the spec: the endpoint manifest of an onValueDeleted
handler. -/
def onValueDeleted (input : ReferenceOrOpts) : Except Str Endpoint :=
  onOperation deletedEventType input

/-! ## Structured logger (embedded from logger/index source) -/

/-- A JavaScript runtime value, as far as the logger inspects one: the
ctorIsObject flag of an object records whether its constructor is the
built-in Object (a plain object literal), which is what the logger's
trailing-argument test checks. -/
inductive JsVal where
  | vstr (s : Str)
  | vnum (n : Int)
  | vbool (b : Bool)
  | vnull
  | vundef
  | vobj (fields : List (Str × JsVal)) (ctorIsObject : Bool)
  | varr (elems : List JsVal)

/-- JavaScript truthiness. -/
def truthy : JsVal → Bool
  | JsVal.vstr s => !s.isEmpty
  | JsVal.vnum n => n != 0
  | JsVal.vbool b => b
  | JsVal.vnull => false
  | JsVal.vundef => false
  | JsVal.vobj _ _ => true
  | JsVal.varr _ => true

/-- Whether the JavaScript typeof operator yields the object type. -/
def typeofIsObject : JsVal → Bool
  | JsVal.vobj _ _ => true
  | JsVal.varr _ => true
  | JsVal.vnull => true
  | _ => false

/-- Whether the value's constructor is the built-in Object. -/
def ctorIsObjectCheck : JsVal → Bool
  | JsVal.vobj _ c => c
  | _ => false

/-- The trailing-argument test of entryFromArgs: the last argument is
truthy, has object type, and its constructor is Object. -/
def lastArgPlainObject (v : JsVal) : Bool :=
  truthy v && typeofIsObject v && ctorIsObjectCheck v

/-- The field list of an optional object value. -/
def objFieldsOf : Option JsVal → List (Str × JsVal)
  | some (JsVal.vobj fs _) => fs
  | _ => []

/-- A structured log entry: its severity, its formatted message, and the
remaining json-payload fields. -/
structure LogEntry where
  severity : Str
  message : Str
  jsonFields : List (Str × JsVal)

/-- The entryFromArgs function of the logger source: when the last
argument is a plain object it is popped and its fields become the
json payload, and the computed severity and formatted message override
any severity or message keys it carried. The message is the util.format
of the remaining arguments; util.format is an external collaborator and
is taken as an explicit function argument here. -/
def entryFromArgs (fmt : List JsVal → Str) (severity : Str) (args : List JsVal) : LogEntry :=
  if (args.getLast?).elim false lastArgPlainObject then
    ⟨severity, fmt args.dropLast,
      (objFieldsOf args.getLast?).filter
        (fun pr => !(pr.1 == lit "severity" || pr.1 == lit "message"))⟩
  else ⟨severity, fmt args, []⟩

/-- The debug function of the logger source: a DEBUG severity entry. -/
def debug (fmt : List JsVal → Str) (args : List JsVal) : LogEntry :=
  entryFromArgs fmt (lit "DEBUG") args

/-- The log function of the logger source: an INFO severity entry. -/
def log (fmt : List JsVal → Str) (args : List JsVal) : LogEntry :=
  entryFromArgs fmt (lit "INFO") args

/-- The info function of the logger source: an INFO severity entry. -/
def info (fmt : List JsVal → Str) (args : List JsVal) : LogEntry :=
  entryFromArgs fmt (lit "INFO") args

/-- The warn function of the logger source: a WARNING severity entry. -/
def warn (fmt : List JsVal → Str) (args : List JsVal) : LogEntry :=
  entryFromArgs fmt (lit "WARNING") args

/-- The error function of the logger source: an ERROR severity entry. -/
def error (fmt : List JsVal → Str) (args : List JsVal) : LogEntry :=
  entryFromArgs fmt (lit "ERROR") args


/-- Concrete witness inputs: the basic test pattern of the suite. -/
def c1Pat : PathPattern :=
  ⟨[Segment.capture (lit "a"), Segment.literal (lit "something"), Segment.literal (lit "else"),
    Segment.wildcard, Segment.literal (lit "end"), Segment.capture (lit "b")],
    lit "\x7ba\x7d/something/else/*/end/\x7bb\x7d"⟩

/-- Concrete witness input: a single-capture pattern. -/
def c4Pat : PathPattern := ⟨[Segment.capture (lit "x")], lit "\x7bx\x7d"⟩

/-- Concrete witness inputs: the multi-segment test pattern of the suite. -/
def c2Pat : PathPattern :=
  ⟨[Segment.literal (lit "something"), Segment.multiCapture (lit "path"),
    Segment.literal (lit "else"), Segment.capture (lit "a"), Segment.literal (lit "hello"),
    Segment.capture (lit "b"), Segment.literal (lit "world")],
    lit "something/\x7bpath=**\x7d/else/\x7ba\x7d/hello/\x7bb\x7d/world"⟩

/-- Concrete witness input: the multi-segment test candidate of the suite. -/
def c2Cand : Str := lit "something/is/a/thing/else/match_a/hello/match_b/world"


/-- Concrete witness input: the endpoint of a bare-path written handler. -/
def c9Ep : Endpoint :=
  makeEndpoint writtenEventType emptyOpts
    ⟨[Segment.literal (lit "foo")], lit "foo"⟩ ⟨[Segment.wildcard], lit "*"⟩

/-- Concrete witness input: logger arguments ending in a plain object that
carries its own severity key. -/
def c10Args : List JsVal :=
  [JsVal.vstr (lit "boom"),
    JsVal.vobj [(lit "severity", JsVal.vstr (lit "CRITICAL")),
      (lit "foo", JsVal.vstr (lit "bar"))] true]

/-- Concrete witness input: a simple stand-in for the format collaborator. -/
def c10Fmt : List JsVal → Str := fun l => List.replicate l.length 'x'

/-! ## Basic lemmas -/

theorem splitAux_ne_nil (cs : List Char) : ∀ acc, splitAux cs acc ≠ [] := by
  induction cs with
  | nil => intro acc; simp [splitAux]
  | cons c cs ih =>
    intro acc
    by_cases h : c = '/'
    · simp [splitAux, h]
    · simpa [splitAux, h] using ih (c :: acc)

theorem joinSlash_splitAux (cs : List Char) :
    ∀ acc, joinSlash (splitAux cs acc) = acc.reverse ++ cs := by
  induction cs with
  | nil => intro acc; simp [splitAux, joinSlash, joinTail]
  | cons c cs ih =>
    intro acc
    by_cases h : c = '/'
    · subst h
      obtain ⟨t, ts, hts⟩ := List.exists_cons_of_ne_nil (splitAux_ne_nil cs [])
      have h1 : t ++ joinTail ts = cs := by
        have h2 := ih []
        rw [hts] at h2
        simpa [joinSlash] using h2
      simp [splitAux, joinSlash, joinTail, hts, h1]
    · have h1 := ih (c :: acc)
      simp only [splitAux, if_neg h]
      rw [h1]
      simp

/-- Joining the components of a split string reconstructs the string. -/

theorem joinSlash_splitOnSlash (cs : Str) : joinSlash (splitOnSlash cs) = cs := by
  simpa using joinSlash_splitAux cs []

/-! ## Segments and pattern compilation -/

/-- One unit of a compiled pattern: literal text, single-component
wildcard, named single-component capture, multi-component wildcard, or
named multi-component capture. -/

theorem list_eq_dropLast_append {α : Type} :
    ∀ (l : List α) (x : α), l.getLast? = some x → l = l.dropLast ++ [x] := by
  intro l
  induction l with
  | nil => intro x h; simp [List.getLast?] at h
  | cons a rest ih =>
    intro x h
    cases rest with
    | nil => simp [List.getLast?] at h; simp [h]
    | cons b rest' =>
      have h' : (b :: rest').getLast? = some x := by
        simpa [List.getLast?_cons_cons] using h
      have := ih x h'
      calc a :: b :: rest' = a :: ((b :: rest').dropLast ++ [x]) := by rw [← this]
        _ = (a :: b :: rest').dropLast ++ [x] := by simp

/-- A successfully classified token renders back to itself. -/

theorem segToStr_classifyToken {t : Str} {s : Segment}
    (h : classifyToken t = Except.ok s) : segToStr s = t := by
  unfold classifyToken at h
  by_cases h1 : t = ['*']
  · simp only [h1, if_pos rfl] at h
    cases h
    simp [segToStr, h1]
  · rw [if_neg h1] at h
    by_cases h2 : t = ['*', '*']
    · simp only [h2, if_pos rfl] at h
      cases h
      simp [segToStr, h2]
    · rw [if_neg h2] at h
      by_cases h3 : t.head? = some '{'
      · rw [if_pos h3] at h
        by_cases h4 : t.getLast? = some '}'
        · rw [if_pos h4] at h
          obtain ⟨r, hr⟩ : ∃ r, t = '{' :: r := by
            cases t with
            | nil => simp at h3
            | cons c cs =>
              have hc : c = '{' := by simpa using h3
              exact ⟨cs, by rw [hc]⟩
          subst hr
          have hrne : r ≠ [] := by
            intro hr0
            subst hr0
            simp [List.getLast?] at h4
          have h4' : r.getLast? = some '}' := by
            cases r with
            | nil => exact absurd rfl hrne
            | cons b rest => simpa [List.getLast?_cons_cons] using h4
          have hrrec : r = r.dropLast ++ ['}'] := list_eq_dropLast_append r '}' h4'
          have hinner : ((('{' :: r).drop 1).dropLast) = r.dropLast := by simp
          rw [hinner] at h
          by_cases h5 : r.dropLast.drop (r.dropLast.length - 3) = ['=', '*', '*']
          · rw [if_pos h5] at h
            cases h
            have htake : r.dropLast.take (r.dropLast.length - 3) ++ ['=', '*', '*'] = r.dropLast := by
              conv_rhs => rw [← List.take_append_drop (r.dropLast.length - 3) r.dropLast]
              rw [h5]
            show ('{' :: r.dropLast.take (r.dropLast.length - 3)) ++ ['=', '*', '*', '}'] = '{' :: r
            have e1 : ('{' :: r.dropLast.take (r.dropLast.length - 3)) ++ ['=', '*', '*', '}']
                = '{' :: (r.dropLast.take (r.dropLast.length - 3) ++ ['=', '*', '*'] ++ ['}']) := by
              simp
            rw [e1, htake]
            conv_rhs => rw [hrrec]
          · rw [if_neg h5] at h
            cases h
            show ('{' :: r.dropLast) ++ ['}'] = '{' :: r
            conv_rhs => rw [hrrec]
            simp
        · rw [if_neg h4] at h
          simp at h
      · rw [if_neg h3] at h
        cases h
        simp [segToStr]

theorem findMultiIdx_eq_none {segs : List Segment} (h : ∀ s ∈ segs, isMulti s = false) :
    findMultiIdx segs = none := by
  induction segs with
  | nil => rfl
  | cons s rest ih =>
    have hs : isMulti s = false := h s (List.mem_cons_self s rest)
    have hr := ih (fun x hx => h x (List.mem_cons_of_mem s hx))
    simp [findMultiIdx, hs, hr]

theorem findMultiIdx_lt_length {segs : List Segment} {i : Nat}
    (h : findMultiIdx segs = some i) : i < segs.length := by
  induction segs generalizing i with
  | nil => simp [findMultiIdx] at h
  | cons s rest ih =>
    by_cases hs : isMulti s = true
    · simp only [findMultiIdx, if_pos hs, Option.some.injEq] at h
      simp [← h]
    · simp only [findMultiIdx, if_neg hs, Option.map_eq_some'] at h
      obtain ⟨j, hj, rfl⟩ := h
      have := ih hj
      simp
      omega

theorem findMultiIdx_take {segs : List Segment} {i : Nat}
    (h : findMultiIdx segs = some i) : ∀ s ∈ segs.take i, isMulti s = false := by
  induction segs generalizing i with
  | nil => intro s hs; simp at hs
  | cons a rest ih =>
    by_cases ha : isMulti a = true
    · simp only [findMultiIdx, if_pos ha, Option.some.injEq] at h
      intro s hs
      rw [← h] at hs
      simp at hs
    · simp only [findMultiIdx, if_neg ha, Option.map_eq_some'] at h
      obtain ⟨j, hj, rfl⟩ := h
      intro s hs
      rw [List.take_succ_cons] at hs
      rcases List.mem_cons.mp hs with rfl | hmem
      · simpa using ha
      · exact ih hj s hmem

theorem findMultiIdx_getElem {segs : List Segment} {i : Nat}
    (h : findMultiIdx segs = some i) : ∃ s, segs[i]? = some s ∧ isMulti s = true := by
  induction segs generalizing i with
  | nil => simp [findMultiIdx] at h
  | cons a rest ih =>
    by_cases ha : isMulti a = true
    · simp only [findMultiIdx, if_pos ha, Option.some.injEq] at h
      exact ⟨a, by rw [← h]; simp, ha⟩
    · simp only [findMultiIdx, if_neg ha, Option.map_eq_some'] at h
      obtain ⟨j, hj, rfl⟩ := h
      obtain ⟨s, hs1, hs2⟩ := ih hj
      exact ⟨s, by rw [List.getElem?_cons_succ]; exact hs1, hs2⟩

theorem countP_le_one_after {segs : List Segment} {i : Nat} {s : Segment}
    (hcount : segs.countP isMulti ≤ 1) (hi : segs[i]? = some s) (hs : isMulti s = true) :
    ∀ y ∈ segs.drop (i + 1), isMulti y = false := by
  induction segs generalizing i with
  | nil => simp at hi
  | cons a rest ih =>
    cases i with
    | zero =>
      rw [List.getElem?_cons_zero, Option.some.injEq] at hi
      subst hi
      have h1 : List.countP isMulti (a :: rest) = List.countP isMulti rest + 1 := by
        simp [List.countP_cons, hs]
      rw [h1] at hcount
      have hz : rest.countP isMulti = 0 := by omega
      intro y hy
      rw [List.drop_succ_cons, List.drop_zero] at hy
      have := List.countP_eq_zero.mp hz y hy
      simpa using this
    | succ j =>
      rw [List.getElem?_cons_succ] at hi
      have hcr : rest.countP isMulti ≤ 1 := by
        rw [List.countP_cons] at hcount
        omega
      intro y hy
      rw [List.drop_succ_cons] at hy
      exact ih hcr hi y hy

theorem nonMultiAgrees_cons {seg : Segment} {rest : List Segment} {c : Str} {cs : List Str} :
    nonMultiAgrees (seg :: rest) (c :: cs) ↔
      ((∀ l, seg = Segment.literal l → c = l) ∧ nonMultiAgrees rest cs) := by
  simp only [nonMultiAgrees, List.zip_cons_cons, List.forall_mem_cons, List.length_cons]
  constructor
  · rintro ⟨h1, h2, h3⟩
    exact ⟨h2, by omega, h3⟩
  · rintro ⟨h2, h1, h3⟩
    exact ⟨by omega, h2, h3⟩

theorem matchNonMulti_isSome {segs : List Segment} (h : ∀ s ∈ segs, isMulti s = false) :
    ∀ comps, (matchNonMulti segs comps).isSome ↔ nonMultiAgrees segs comps := by
  induction segs with
  | nil =>
    intro comps
    cases comps with
    | nil => simp [matchNonMulti, nonMultiAgrees]
    | cons c cs => simp [matchNonMulti, nonMultiAgrees]
  | cons seg rest ih =>
    have hrest := fun x hx => h x (List.mem_cons_of_mem seg hx)
    have hseg : isMulti seg = false := h seg (List.mem_cons_self seg rest)
    intro comps
    cases comps with
    | nil =>
      cases seg <;> simp [matchNonMulti, nonMultiAgrees]
    | cons c cs =>
      cases seg with
      | literal l =>
        rw [nonMultiAgrees_cons]
        by_cases hlc : l = c
        · rw [show matchNonMulti (Segment.literal l :: rest) (c :: cs)
                = matchNonMulti rest cs from by simp [matchNonMulti, hlc]]
          rw [ih hrest cs]
          constructor
          · intro hA
            refine ⟨fun l' hl' => ?_, hA⟩
            cases hl'
            exact hlc.symm
          · intro h'
            exact h'.2
        · simp only [matchNonMulti, if_neg hlc]
          simp only [Option.isSome_none, Bool.false_eq_true, false_iff]
          rintro ⟨hl', _⟩
          exact hlc (hl' l rfl).symm
      | wildcard =>
        rw [nonMultiAgrees_cons]
        simp only [matchNonMulti]
        rw [ih hrest cs]
        constructor
        · intro hA
          exact ⟨fun l' hl' => absurd hl' (by simp), hA⟩
        · intro h'
          exact h'.2
      | capture n =>
        rw [nonMultiAgrees_cons]
        simp only [matchNonMulti]
        rw [show ((matchNonMulti rest cs).map (fun m => (n, c) :: m)).isSome
              = (matchNonMulti rest cs).isSome from by cases matchNonMulti rest cs <;> rfl]
        rw [ih hrest cs]
        constructor
        · intro hA
          exact ⟨fun l' hl' => absurd hl' (by simp), hA⟩
        · intro h'
          exact h'.2
      | multiWildcard => simp [isMulti] at hseg
      | multiCapture n => simp [isMulti] at hseg

theorem matchNonMulti_eq_some :
    ∀ (segs : List Segment) (comps : List Str) (m : ParamMap),
      matchNonMulti segs comps = some m → m = capturesOf segs comps := by
  intro segs
  induction segs with
  | nil =>
    intro comps m h
    cases comps with
    | nil =>
      simp only [matchNonMulti, Option.some.injEq] at h
      simp [← h, capturesOf]
    | cons c cs => simp [matchNonMulti] at h
  | cons seg rest ih =>
    intro comps m h
    cases comps with
    | nil => cases seg <;> simp [matchNonMulti] at h
    | cons c cs =>
      cases seg with
      | literal l =>
        by_cases hlc : l = c
        · rw [show matchNonMulti (Segment.literal l :: rest) (c :: cs)
                = matchNonMulti rest cs from by simp [matchNonMulti, hlc]] at h
          rw [ih cs m h]
          simp [capturesOf]
        · simp [matchNonMulti, hlc] at h
      | wildcard =>
        rw [show matchNonMulti (Segment.wildcard :: rest) (c :: cs)
              = matchNonMulti rest cs from rfl] at h
        rw [ih cs m h]
        simp [capturesOf]
      | capture n =>
        rw [show matchNonMulti (Segment.capture n :: rest) (c :: cs)
              = (matchNonMulti rest cs).map (fun m => (n, c) :: m) from rfl] at h
        cases hmc : matchNonMulti rest cs with
        | none => rw [hmc] at h; simp at h
        | some m' =>
          rw [hmc] at h
          simp only [Option.map_some', Option.some.injEq] at h
          rw [← h, ih cs m' hmc]
          simp [capturesOf]
      | multiWildcard => simp [matchNonMulti] at h
      | multiCapture n => simp [matchNonMulti] at h

theorem capturesOf_mem_of_capture :
    ∀ (segs : List Segment) (comps : List Str) (n c : Str),
      (Segment.capture n, c) ∈ segs.zip comps → (n, c) ∈ capturesOf segs comps := by
  intro segs
  induction segs with
  | nil => intro comps n c h; simp at h
  | cons seg rest ih =>
    intro comps n c h
    cases comps with
    | nil => simp at h
    | cons d cs =>
      rw [List.zip_cons_cons] at h
      rcases List.mem_cons.mp h with heq | hmem
      · obtain ⟨h1, h2⟩ := Prod.mk.inj heq.symm
        rw [h1, h2]
        simp [capturesOf]
      · cases seg with
        | capture m =>
          rw [show capturesOf (Segment.capture m :: rest) (d :: cs)
                = (m, d) :: capturesOf rest cs from rfl]
          exact List.mem_cons_of_mem _ (ih cs n c hmem)
        | literal l => exact ih cs n c hmem
        | wildcard => exact ih cs n c hmem
        | multiWildcard => exact ih cs n c hmem
        | multiCapture m => exact ih cs n c hmem

theorem capturesOf_mem_elim :
    ∀ (segs : List Segment) (comps : List Str) (e : Str × Str),
      e ∈ capturesOf segs comps →
      ∃ pr ∈ segs.zip comps, pr.1 = Segment.capture e.1 ∧ pr.2 = e.2 := by
  intro segs
  induction segs with
  | nil => intro comps e h; simp [capturesOf] at h
  | cons seg rest ih =>
    intro comps e h
    cases comps with
    | nil =>
      cases seg <;> simp [capturesOf] at h
    | cons d cs =>
      cases seg with
      | capture m =>
        rw [show capturesOf (Segment.capture m :: rest) (d :: cs)
              = (m, d) :: capturesOf rest cs from rfl] at h
        rcases List.mem_cons.mp h with heq | hmem
        · refine ⟨(Segment.capture m, d), by simp, ?_, ?_⟩
          · rw [heq]
          · rw [heq]
        · obtain ⟨pr, hpr, h1, h2⟩ := ih cs e hmem
          exact ⟨pr, by rw [List.zip_cons_cons]; exact List.mem_cons_of_mem _ hpr, h1, h2⟩
      | literal l =>
        obtain ⟨pr, hpr, h1, h2⟩ := ih cs e h
        exact ⟨pr, by rw [List.zip_cons_cons]; exact List.mem_cons_of_mem _ hpr, h1, h2⟩
      | wildcard =>
        obtain ⟨pr, hpr, h1, h2⟩ := ih cs e h
        exact ⟨pr, by rw [List.zip_cons_cons]; exact List.mem_cons_of_mem _ hpr, h1, h2⟩
      | multiWildcard =>
        obtain ⟨pr, hpr, h1, h2⟩ := ih cs e h
        exact ⟨pr, by rw [List.zip_cons_cons]; exact List.mem_cons_of_mem _ hpr, h1, h2⟩
      | multiCapture m =>
        obtain ⟨pr, hpr, h1, h2⟩ := ih cs e h
        exact ⟨pr, by rw [List.zip_cons_cons]; exact List.mem_cons_of_mem _ hpr, h1, h2⟩

theorem classifyAll_map {ts : List Str} {segs : List Segment}
    (h : classifyAll ts = Except.ok segs) : segs.map segToStr = ts := by
  induction ts generalizing segs with
  | nil =>
    rw [show classifyAll [] = Except.ok [] from rfl] at h
    cases h
    rfl
  | cons t ts ih =>
    rw [show classifyAll (t :: ts)
          = match classifyToken t, classifyAll ts with
            | Except.ok s, Except.ok ss => Except.ok (s :: ss)
            | Except.error e, _ => Except.error e
            | _, Except.error e => Except.error e from rfl] at h
    cases hct : classifyToken t with
    | error e => rw [hct] at h; simp at h
    | ok s =>
      cases hca : classifyAll ts with
      | error e => rw [hct, hca] at h; simp at h
      | ok ss =>
        rw [hct, hca] at h
        simp only at h
        cases h
        rw [List.map_cons, segToStr_classifyToken hct, ih hca]

theorem classifyAll_error_of_mem :
    ∀ (ts : List Str) (t : Str) (e : Str), t ∈ ts → classifyToken t = Except.error e →
      ∃ e2, classifyAll ts = Except.error e2 := by
  intro ts
  induction ts with
  | nil => intro t e hm; simp at hm
  | cons a rest ih =>
    intro t e hm he
    rw [show classifyAll (a :: rest)
          = match classifyToken a, classifyAll rest with
            | Except.ok s, Except.ok ss => Except.ok (s :: ss)
            | Except.error e, _ => Except.error e
            | _, Except.error e => Except.error e from rfl]
    rcases List.mem_cons.mp hm with rfl | hmem
    · rw [he]
      cases hca2 : classifyAll rest with
      | error e2 => exact ⟨e, rfl⟩
      | ok ss => exact ⟨e, rfl⟩
    · cases hca : classifyToken a with
      | error e2 =>
        cases hca2 : classifyAll rest with
        | error e3 => exact ⟨e2, rfl⟩
        | ok ss => exact ⟨e2, rfl⟩
      | ok s =>
        obtain ⟨e2, he2⟩ := ih t e hmem he
        rw [he2]
        exact ⟨e2, rfl⟩

theorem classifyAll_countP {ts : List Str} {segs : List Segment}
    (h : classifyAll ts = Except.ok segs) :
    segs.countP isMulti = ts.countP isMultiTok := by
  induction ts generalizing segs with
  | nil =>
    rw [show classifyAll [] = Except.ok [] from rfl] at h
    cases h
    rfl
  | cons t ts ih =>
    rw [show classifyAll (t :: ts)
          = match classifyToken t, classifyAll ts with
            | Except.ok s, Except.ok ss => Except.ok (s :: ss)
            | Except.error e, _ => Except.error e
            | _, Except.error e => Except.error e from rfl] at h
    cases hct : classifyToken t with
    | error e => rw [hct] at h; simp at h
    | ok s =>
      cases hca : classifyAll ts with
      | error e => rw [hct, hca] at h; simp at h
      | ok ss =>
        rw [hct, hca] at h
        simp only at h
        cases h
        rw [List.countP_cons, List.countP_cons, ih hca]
        have : isMultiTok t = isMulti s := by
          unfold isMultiTok
          rw [hct]
        rw [this]

theorem compile_ok {s : Str} {p : PathPattern} (h : compile s = Except.ok p) :
    classifyAll (splitOnSlash (trimSlashes s)) = Except.ok p.segments ∧
    p.source = trimSlashes s ∧ p.segments.countP isMulti ≤ 1 := by
  unfold compile at h
  cases hca : classifyAll (splitOnSlash (trimSlashes s)) with
  | error e => rw [hca] at h; simp at h
  | ok segs =>
    rw [hca] at h
    simp only at h
    by_cases h2 : 2 ≤ segs.countP isMulti
    · rw [if_pos h2] at h; simp at h
    · rw [if_neg h2] at h
      cases h
      have h3 : List.countP isMulti segs ≤ 1 := by omega
      exact ⟨rfl, rfl, h3⟩

theorem pmGet_append_some {m1 m2 : ParamMap} {k v : Str} (h : pmGet m2 k = some v) :
    pmGet (m1 ++ m2) k = some v := by
  unfold pmGet at h ⊢
  rw [List.reverse_append, List.find?_append]
  cases hf : m2.reverse.find? (fun pr => pr.1 == k) with
  | none => rw [hf] at h; simp at h
  | some pr =>
    rw [hf] at h
    rw [show (some pr).or (m1.reverse.find? (fun pr => pr.1 == k)) = some pr from rfl]
    exact h

theorem pmGet_append_none {m1 m2 : ParamMap} {k : Str} (h : pmGet m2 k = none) :
    pmGet (m1 ++ m2) k = pmGet m1 k := by
  unfold pmGet at h ⊢
  rw [List.reverse_append, List.find?_append]
  cases hf : m2.reverse.find? (fun pr => pr.1 == k) with
  | none => rfl
  | some pr => rw [hf] at h; simp at h

/-! ## Claim theorems -/

/-- C6: for every valid pattern source s, rendering the compiled pattern
reconstructs the slash-trimmed source exactly (round-trip law), and
compiling the same source twice, or matching the same pattern against the
same candidate twice, yields identical results (no hidden mutable state). -/
theorem c6_compile_roundtrip (s : Str) (p : PathPattern) (h : compile s = Except.ok p) :
    p.toStr = trimSlashes s ∧ compile s = compile s ∧
    (∀ cand, pmatch p cand = pmatch p cand) := by
  obtain ⟨hca, hsrc, hcount⟩ := compile_ok h
  refine ⟨?_, rfl, fun _ => rfl⟩
  unfold PathPattern.toStr
  rw [classifyAll_map hca, joinSlash_splitOnSlash]

/-- Concrete compiled pattern used to witness the round-trip claim. -/
theorem c6_compile_roundtrip_witness :
    compile (lit "/foo/\x7bbar\x7d/")
      = Except.ok ⟨[Segment.literal (lit "foo"), Segment.capture (lit "bar")], lit "foo/\x7bbar\x7d"⟩ ∧
    (⟨[Segment.literal (lit "foo"), Segment.capture (lit "bar")],
        lit "foo/\x7bbar\x7d"⟩ : PathPattern).toStr
      = trimSlashes (lit "/foo/\x7bbar\x7d/") := by
  have h : compile (lit "/foo/\x7bbar\x7d/")
      = Except.ok ⟨[Segment.literal (lit "foo"), Segment.capture (lit "bar")],
          lit "foo/\x7bbar\x7d"⟩ := by rfl
  exact ⟨h, (c6_compile_roundtrip _ _ h).1⟩

/-- C1: for a compiled pattern without a multi-segment token, matching
succeeds iff the candidate has exactly as many components as the pattern
has segments and every literal segment equals its component positionally;
on success the returned map is exactly the capture bindings: every capture
segment records its component under its name, and every entry of the map
comes from a capture segment (wildcards consume without capturing). -/
theorem c1_match_without_multi (src cand : Str) (p : PathPattern)
    (hc : compile src = Except.ok p) (hnm : ∀ s ∈ p.segments, isMulti s = false) :
    ((pmatch p cand).isSome ↔ nonMultiAgrees p.segments (components cand)) ∧
    (∀ m, pmatch p cand = some m →
      m = capturesOf p.segments (components cand) ∧
      (∀ pr ∈ p.segments.zip (components cand), ∀ n, pr.1 = Segment.capture n → (n, pr.2) ∈ m) ∧
      (∀ e ∈ m, ∃ pr ∈ p.segments.zip (components cand),
        pr.1 = Segment.capture e.1 ∧ pr.2 = e.2)) := by
  have hfi : findMultiIdx p.segments = none := findMultiIdx_eq_none hnm
  have hpm : pmatch p cand = matchNonMulti p.segments (components cand) := by
    unfold pmatch
    rw [hfi]
  constructor
  · rw [hpm]
    exact matchNonMulti_isSome hnm (components cand)
  · intro m hm
    rw [hpm] at hm
    have hcap := matchNonMulti_eq_some _ _ _ hm
    refine ⟨hcap, ?_, ?_⟩
    · intro pr hpr n hn
      rw [hcap]
      have hmem : (Segment.capture n, pr.2) ∈ p.segments.zip (components cand) := by
        rw [← hn]
        exact hpr
      exact capturesOf_mem_of_capture _ _ _ _ hmem
    · intro e he
      rw [hcap] at he
      exact capturesOf_mem_elim _ _ _ he

theorem c1_match_without_multi_witness :
    compile (lit "\x7ba\x7d/something/else/*/end/\x7bb\x7d") = Except.ok c1Pat ∧
    (∀ s ∈ c1Pat.segments, isMulti s = false) ∧
    ((pmatch c1Pat (lit "match_a/something/else/nothing/end/match_b")).isSome ↔
      nonMultiAgrees c1Pat.segments
        (components (lit "match_a/something/else/nothing/end/match_b"))) := by
  have hc : compile (lit "\x7ba\x7d/something/else/*/end/\x7bb\x7d") = Except.ok c1Pat := by rfl
  have hnm : ∀ s ∈ c1Pat.segments, isMulti s = false := by decide
  exact ⟨hc, hnm, (c1_match_without_multi _ _ _ hc hnm).1⟩

/-- C5: options normalization reduces the three input shapes to the
canonical record: a bare string is the slash-trimmed path with a wildcard
instance and empty options; an object contributes its trimmed ref, its
trimmed instance (defaulting to the wildcard), and its remaining fields
verbatim; any other shape is a configuration error. -/
theorem c5_getOpts_shapes (s : Str) (o : RefOptions) (sh : Str) :
    getOpts (ReferenceOrOpts.path s) = Except.ok ⟨trimSlashes s, ['*'], emptyOpts⟩ ∧
    getOpts (ReferenceOrOpts.options o)
      = Except.ok ⟨trimSlashes o.ref, trimSlashes (o.inst.getD ['*']), o.opts⟩ ∧
    (∃ e, getOpts (ReferenceOrOpts.invalid sh) = Except.error e) :=
  ⟨rfl, rfl, ⟨lit "ReferenceOptions must be a string or an object, got: " ++ sh, rfl⟩⟩

/-- C3: the endpoint places the instance pattern in exactly one of the two
filter maps, determined by whether its raw source contains routing syntax:
with routing syntax it is a path-pattern filter and absent from the exact
filters, and for a literal instance it is the reverse; never both, never
neither. -/
theorem c3_instance_representation (et : Str) (opts : DbOpts) (pp ip : PathPattern) :
    lookupField (makeEndpoint et opts pp ip).eventTrigger.eventFilterPathPatterns (lit "instance")
      = (if hasRoutingSyntax ip.source then some ip.source else none) ∧
    lookupField (makeEndpoint et opts pp ip).eventTrigger.eventFilters (lit "instance")
      = (if hasRoutingSyntax ip.source then none else some ip.source) := by
  have hri : (lit "ref" == lit "instance") = false := by decide
  have hii : (lit "instance" == lit "instance") = true := by decide
  by_cases h : hasRoutingSyntax ip.source
  · constructor
    · simp [makeEndpoint, lookupField, h, List.find?, hri, hii]
    · simp [makeEndpoint, lookupField, h, List.find?]
  · constructor
    · simp [makeEndpoint, lookupField, h, List.find?, hri]
    · simp [makeEndpoint, lookupField, h, List.find?, hii]

/-- C8: the endpoint's region field wraps a single region string into a
one-element sequence, copies a sequence, and is omitted when absent; and
the ref entry of the path-pattern filters is always present and equal to
the resource pattern's canonical source. -/
theorem c8_region_and_ref (et : Str) (opts : DbOpts) (pp ip : PathPattern) :
    (makeEndpoint et opts pp ip).region
      = Option.map (fun r => match r with
          | RegionSpec.one x => [x]
          | RegionSpec.many xs => xs) opts.region ∧
    lookupField (makeEndpoint et opts pp ip).eventTrigger.eventFilterPathPatterns (lit "ref")
      = some pp.source := by
  constructor
  · cases hr : opts.region with
    | none => simp [makeEndpoint, hr]
    | some rs => cases rs <;> simp [makeEndpoint, hr]
  · have hrr : (lit "ref" == lit "ref") = true := by decide
    simp [makeEndpoint, lookupField, List.find?, hrr]

/-- C4: parameter extraction matches the event's ref against the resource
pattern and its instance against the instance pattern and returns the
merge of the two maps, instance captures applied after resource captures,
so a name captured by both resolves to the instance's value. -/
theorem c4_makeParams_merge (ev : RawRTDBCloudEvent) (pp ip : PathPattern)
    (rm im : ParamMap) (h1 : pmatch pp ev.ref = some rm) (h2 : pmatch ip ev.inst = some im) :
    makeParams ev pp ip = Except.ok (rm ++ im) ∧
    (∀ n v, pmGet im n = some v → pmGet (rm ++ im) n = some v) ∧
    (∀ n, pmGet im n = none → pmGet (rm ++ im) n = pmGet rm n) := by
  refine ⟨?_, fun n v hv => pmGet_append_some hv, fun n hn => pmGet_append_none hn⟩
  unfold makeParams
  rw [h1, h2]
  rfl

theorem c4_makeParams_merge_witness :
    pmatch c4Pat (lit "r") = some [(lit "x", lit "r")] ∧
    pmatch c4Pat (lit "i") = some [(lit "x", lit "i")] ∧
    makeParams ⟨lit "r", lit "i"⟩ c4Pat c4Pat
      = Except.ok ([(lit "x", lit "r")] ++ [(lit "x", lit "i")]) ∧
    pmGet ([(lit "x", lit "r")] ++ [(lit "x", lit "i")]) (lit "x") = some (lit "i") := by
  have h1 : pmatch c4Pat (lit "r") = some [(lit "x", lit "r")] := by rfl
  have h2 : pmatch c4Pat (lit "i") = some [(lit "x", lit "i")] := by rfl
  have hm := c4_makeParams_merge ⟨lit "r", lit "i"⟩ c4Pat c4Pat _ _ h1 h2
  exact ⟨h1, h2, hm.1, hm.2.1 (lit "x") (lit "i") (by rfl)⟩

/-- C2: for a compiled pattern with its (single) multi-segment token at
position i, matching fails when the candidate has fewer components than
the pattern's count of fixed segments F; otherwise, with span k = C - F,
the match succeeds iff the segments before i agree with components [0, i)
and the segments after i agree with components [i+k, C) positionally, and
the returned map is the captures before the token, then the token's own
entry (the components [i, i+k) joined with the separator, recorded under
its name when it is a named multi capture and absent for a multi
wildcard), then the captures after the token in their original order. -/
theorem c2_match_with_multi (src cand : Str) (p : PathPattern) (i : Nat)
    (hc : compile src = Except.ok p) (hi : findMultiIdx p.segments = some i) :
    ((components cand).length < p.segments.length - 1 → pmatch p cand = none) ∧
    (p.segments.length - 1 ≤ (components cand).length →
      (((pmatch p cand).isSome ↔
        nonMultiAgrees (p.segments.take i) ((components cand).take i) ∧
        nonMultiAgrees (p.segments.drop (i + 1))
          ((components cand).drop
            (i + ((components cand).length - (p.segments.length - 1))))) ∧
      (∀ m, pmatch p cand = some m →
        m = capturesOf (p.segments.take i) ((components cand).take i)
            ++ multiSegmentEntry p.segments i (components cand)
                ((components cand).length - (p.segments.length - 1))
            ++ capturesOf (p.segments.drop (i + 1))
                ((components cand).drop
                  (i + ((components cand).length - (p.segments.length - 1))))))) := by
  obtain ⟨-, -, hcount⟩ := compile_ok hc
  have hlt : i < p.segments.length := findMultiIdx_lt_length hi
  obtain ⟨ms, hms, hmulti⟩ := findMultiIdx_getElem hi
  have hpre : ∀ s ∈ p.segments.take i, isMulti s = false := findMultiIdx_take hi
  have hpost : ∀ s ∈ p.segments.drop (i + 1), isMulti s = false :=
    countP_le_one_after hcount hms hmulti
  have hF : (p.segments.take i).length + (p.segments.drop (i + 1)).length
      = p.segments.length - 1 := by
    rw [List.length_take, List.length_drop]
    omega
  have hpm : pmatch p cand = matchWithMultiAt p.segments i (components cand) := by
    unfold pmatch
    rw [hi]
  constructor
  · intro hlt2
    rw [hpm]
    unfold matchWithMultiAt
    rw [if_pos (by rw [hF]; exact hlt2)]
  · intro hge
    have hcond : ¬ ((components cand).length
        < (p.segments.take i).length + (p.segments.drop (i + 1)).length) := by
      rw [hF]
      omega
    rw [hpm]
    unfold matchWithMultiAt
    rw [if_neg hcond, hF, hms]
    have hA1iff := matchNonMulti_isSome hpre ((components cand).take i)
    have hA2iff := matchNonMulti_isSome hpost
      ((components cand).drop (i + ((components cand).length - (p.segments.length - 1))))
    cases hm1 : matchNonMulti (p.segments.take i) ((components cand).take i) with
    | none =>
      rw [hm1] at hA1iff
      have hA1 : ¬ nonMultiAgrees (p.segments.take i) ((components cand).take i) := by
        simpa using hA1iff
      cases hm2 : matchNonMulti (p.segments.drop (i + 1))
          ((components cand).drop
            (i + ((components cand).length - (p.segments.length - 1)))) with
      | none =>
        cases ms with
        | literal l => simp [isMulti] at hmulti
        | wildcard => simp [isMulti] at hmulti
        | capture n => simp [isMulti] at hmulti
        | multiWildcard =>
          refine ⟨⟨fun h => absurd h (by simp), fun h => absurd h.1 hA1⟩, ?_⟩
          intro m hm
          exact absurd hm (by simp)
        | multiCapture n =>
          refine ⟨⟨fun h => absurd h (by simp), fun h => absurd h.1 hA1⟩, ?_⟩
          intro m hm
          exact absurd hm (by simp)
      | some m2 =>
        cases ms with
        | literal l => simp [isMulti] at hmulti
        | wildcard => simp [isMulti] at hmulti
        | capture n => simp [isMulti] at hmulti
        | multiWildcard =>
          refine ⟨⟨fun h => absurd h (by simp), fun h => absurd h.1 hA1⟩, ?_⟩
          intro m hm
          exact absurd hm (by simp)
        | multiCapture n =>
          refine ⟨⟨fun h => absurd h (by simp), fun h => absurd h.1 hA1⟩, ?_⟩
          intro m hm
          exact absurd hm (by simp)
    | some m1 =>
      rw [hm1] at hA1iff
      have hA1 : nonMultiAgrees (p.segments.take i) ((components cand).take i) := by
        rw [← hA1iff]
        rfl
      cases hm2 : matchNonMulti (p.segments.drop (i + 1))
          ((components cand).drop
            (i + ((components cand).length - (p.segments.length - 1)))) with
      | none =>
        rw [hm2] at hA2iff
        have hA2 : ¬ nonMultiAgrees (p.segments.drop (i + 1))
            ((components cand).drop
              (i + ((components cand).length - (p.segments.length - 1)))) := by
          simpa using hA2iff
        cases ms with
        | literal l => simp [isMulti] at hmulti
        | wildcard => simp [isMulti] at hmulti
        | capture n => simp [isMulti] at hmulti
        | multiWildcard =>
          refine ⟨⟨fun h => absurd h (by simp), fun h => absurd h.2 hA2⟩, ?_⟩
          intro m hm
          exact absurd hm (by simp)
        | multiCapture n =>
          refine ⟨⟨fun h => absurd h (by simp), fun h => absurd h.2 hA2⟩, ?_⟩
          intro m hm
          exact absurd hm (by simp)
      | some m2 =>
        rw [hm2] at hA2iff
        have hA2 : nonMultiAgrees (p.segments.drop (i + 1))
            ((components cand).drop
              (i + ((components cand).length - (p.segments.length - 1)))) := by
          rw [← hA2iff]
          rfl
        have hc1 := matchNonMulti_eq_some _ _ _ hm1
        have hc2 := matchNonMulti_eq_some _ _ _ hm2
        cases ms with
        | literal l => simp [isMulti] at hmulti
        | wildcard => simp [isMulti] at hmulti
        | capture n => simp [isMulti] at hmulti
        | multiWildcard =>
          refine ⟨⟨fun _ => ⟨hA1, hA2⟩, fun _ => rfl⟩, ?_⟩
          intro m hm
          have hminj := Option.some.inj hm
          rw [← hminj, hc1, hc2]
          unfold multiSegmentEntry
          rw [hms]
          simp
        | multiCapture n =>
          refine ⟨⟨fun _ => ⟨hA1, hA2⟩, fun _ => rfl⟩, ?_⟩
          intro m hm
          have hminj := Option.some.inj hm
          rw [← hminj, hc1, hc2]
          unfold multiSegmentEntry
          rw [hms]

theorem c2_match_with_multi_witness :
    compile (lit "something/\x7bpath=**\x7d/else/\x7ba\x7d/hello/\x7bb\x7d/world")
      = Except.ok c2Pat ∧
    findMultiIdx c2Pat.segments = some 1 ∧
    c2Pat.segments.length - 1 ≤ (components c2Cand).length ∧
    ((pmatch c2Pat c2Cand).isSome ↔
      nonMultiAgrees (c2Pat.segments.take 1) ((components c2Cand).take 1) ∧
      nonMultiAgrees (c2Pat.segments.drop (1 + 1))
        ((components c2Cand).drop
          (1 + ((components c2Cand).length - (c2Pat.segments.length - 1))))) := by
  have hc : compile (lit "something/\x7bpath=**\x7d/else/\x7ba\x7d/hello/\x7bb\x7d/world")
      = Except.ok c2Pat := by rfl
  have hi : findMultiIdx c2Pat.segments = some 1 := by rfl
  have hge : c2Pat.segments.length - 1 ≤ (components c2Cand).length := by decide
  exact ⟨hc, hi, hge, ((c2_match_with_multi _ c2Cand c2Pat 1 hc hi).2 hge).1⟩

/-- C7: compiling a source whose token list holds a token opening a brace
without closing it, or holds at least two multi-segment tokens, fails with
a configuration error; it never silently succeeds with a different
interpretation. -/
theorem c7_compile_rejects_malformed (s : Str)
    (h : (∃ t ∈ splitOnSlash (trimSlashes s),
            t.head? = some '{' ∧ t.getLast? ≠ some '}') ∨
         2 ≤ (splitOnSlash (trimSlashes s)).countP isMultiTok) :
    ∃ e, compile s = Except.error e := by
  rcases h with ⟨t, hmem, hhead, hlast⟩ | hcount
  · have h1 : ¬ (t = ['*']) := by
      rintro rfl
      simp at hhead
    have h2 : ¬ (t = ['*', '*']) := by
      rintro rfl
      simp at hhead
    have herr : classifyToken t
        = Except.error (lit "unterminated capture in template: " ++ t) := by
      unfold classifyToken
      rw [if_neg h1, if_neg h2, if_pos hhead, if_neg hlast]
    obtain ⟨e2, he2⟩ := classifyAll_error_of_mem _ _ _ hmem herr
    refine ⟨e2, ?_⟩
    unfold compile
    rw [he2]
  · cases hca : classifyAll (splitOnSlash (trimSlashes s)) with
    | error e =>
      refine ⟨e, ?_⟩
      unfold compile
      rw [hca]
    | ok segs =>
      have hcp := classifyAll_countP hca
      refine ⟨multipleMultiErr, ?_⟩
      unfold compile
      rw [hca]
      show (if 2 ≤ List.countP isMulti segs then Except.error multipleMultiErr
        else Except.ok (PathPattern.mk segs (trimSlashes s))) = Except.error multipleMultiErr
      rw [if_pos (by rw [hcp]; exact hcount)]

theorem c7_compile_rejects_malformed_witness :
    2 ≤ (splitOnSlash (trimSlashes (lit "**/a/**"))).countP isMultiTok ∧
    (∃ e, compile (lit "**/a/**") = Except.error e) := by
  have h2 : 2 ≤ (splitOnSlash (trimSlashes (lit "**/a/**"))).countP isMultiTok := by decide
  exact ⟨h2, c7_compile_rejects_malformed _ (Or.inr h2)⟩

/-- C9: every endpoint manifest assembled by makeEndpoint, and every
endpoint carried by onChangedOperation, onOperation, and the four
onValue constructors, has its platform fixed to gcfv2 and its event
trigger's retry fixed to false, for all event types, options, and
patterns. -/
theorem c9_platform_and_retry (et : Str) (opts : DbOpts) (pp ip : PathPattern) :
    (makeEndpoint et opts pp ip).platform = lit "gcfv2" ∧
    (makeEndpoint et opts pp ip).eventTrigger.retry = false ∧
    (∀ inp ep, onChangedOperation et inp = Except.ok ep →
      ep.platform = lit "gcfv2" ∧ ep.eventTrigger.retry = false) ∧
    (∀ inp ep, onOperation et inp = Except.ok ep →
      ep.platform = lit "gcfv2" ∧ ep.eventTrigger.retry = false) ∧
    (∀ inp ep, onValueWritten inp = Except.ok ep →
      ep.platform = lit "gcfv2" ∧ ep.eventTrigger.retry = false) ∧
    (∀ inp ep, onValueCreated inp = Except.ok ep →
      ep.platform = lit "gcfv2" ∧ ep.eventTrigger.retry = false) ∧
    (∀ inp ep, onValueUpdated inp = Except.ok ep →
      ep.platform = lit "gcfv2" ∧ ep.eventTrigger.retry = false) ∧
    (∀ inp ep, onValueDeleted inp = Except.ok ep →
      ep.platform = lit "gcfv2" ∧ ep.eventTrigger.retry = false) := by
  have key : ∀ (et2 : Str) (inp : ReferenceOrOpts) (ep : Endpoint),
      onChangedOperation et2 inp = Except.ok ep →
      ep.platform = lit "gcfv2" ∧ ep.eventTrigger.retry = false := by
    intro et2 inp ep h
    unfold onChangedOperation at h
    cases hg : getOpts inp with
    | error e => rw [hg] at h; simp at h
    | ok no =>
      rw [hg] at h
      have h2 : (match compile no.path, compile no.inst with
          | Except.ok pp2, Except.ok ip2 => Except.ok (makeEndpoint et2 no.opts pp2 ip2)
          | Except.error e, _ => Except.error e
          | _, Except.error e => Except.error e) = Except.ok ep := h
      clear h
      cases hc1 : compile no.path with
      | error e =>
        cases hc2 : compile no.inst with
        | error e2 => rw [hc1, hc2] at h2; simp at h2
        | ok ip2 => rw [hc1, hc2] at h2; simp at h2
      | ok pp2 =>
        cases hc2 : compile no.inst with
        | error e2 => rw [hc1, hc2] at h2; simp at h2
        | ok ip2 =>
          rw [hc1, hc2] at h2
          simp only [Except.ok.injEq] at h2
          rw [← h2]
          exact ⟨rfl, rfl⟩
  exact ⟨rfl, rfl, key et, key et, key writtenEventType, key createdEventType,
    key updatedEventType, key deletedEventType⟩

theorem c9_platform_and_retry_witness :
    onValueWritten (ReferenceOrOpts.path (lit "foo")) = Except.ok c9Ep ∧
    c9Ep.platform = lit "gcfv2" ∧ c9Ep.eventTrigger.retry = false := by
  have h : onValueWritten (ReferenceOrOpts.path (lit "foo")) = Except.ok c9Ep := by rfl
  have hk := (c9_platform_and_retry writtenEventType emptyOpts
    ⟨[Segment.literal (lit "foo")], lit "foo"⟩ ⟨[Segment.wildcard], lit "*"⟩).2.2.2.2.1
  exact ⟨h, hk _ _ h⟩

/-- C10: every entry emitted by the five logging functions has the called
function's severity constant; when the trailing argument is a plain object
it is popped, the message is the formatting of the remaining arguments,
and the object's fields become the json payload with its own severity and
message keys overridden by the computed values; otherwise the message
formats all arguments and the payload is empty. -/
theorem c10_logger_entry (fmt : List JsVal → Str) (sev : Str) (args : List JsVal) :
    (debug fmt args).severity = lit "DEBUG" ∧
    (log fmt args).severity = lit "INFO" ∧
    (info fmt args).severity = lit "INFO" ∧
    (warn fmt args).severity = lit "WARNING" ∧
    (error fmt args).severity = lit "ERROR" ∧
    (entryFromArgs fmt sev args).severity = sev ∧
    (∀ fs, args.getLast? = some (JsVal.vobj fs true) →
      (entryFromArgs fmt sev args).message = fmt args.dropLast ∧
      (entryFromArgs fmt sev args).jsonFields
        = fs.filter (fun pr => !(pr.1 == lit "severity" || pr.1 == lit "message"))) ∧
    ((args.getLast?).elim True (fun v => lastArgPlainObject v = false) →
      (entryFromArgs fmt sev args).message = fmt args ∧
      (entryFromArgs fmt sev args).jsonFields = []) := by
  have hsev : ∀ sv : Str, (entryFromArgs fmt sv args).severity = sv := by
    intro sv
    unfold entryFromArgs
    by_cases h : (args.getLast?).elim false lastArgPlainObject = true
    · rw [if_pos h]
    · rw [if_neg h]
  refine ⟨hsev (lit "DEBUG"), hsev (lit "INFO"), hsev (lit "INFO"), hsev (lit "WARNING"),
    hsev (lit "ERROR"), hsev sev, ?_, ?_⟩
  · intro fs hlast
    have hcond : (args.getLast?).elim false lastArgPlainObject = true := by
      rw [hlast]
      rfl
    unfold entryFromArgs
    rw [if_pos hcond]
    refine ⟨rfl, ?_⟩
    show (objFieldsOf args.getLast?).filter _ = _
    rw [hlast]
    rfl
  · intro hnp
    cases hl : args.getLast? with
    | none =>
      have hcnd : ¬ ((args.getLast?).elim false lastArgPlainObject = true) := by
        rw [hl]
        simp
      unfold entryFromArgs
      rw [if_neg hcnd]
      exact ⟨rfl, rfl⟩
    | some v =>
      rw [hl] at hnp
      have hv : lastArgPlainObject v = false := hnp
      have hcnd : ¬ ((args.getLast?).elim false lastArgPlainObject = true) := by
        rw [hl]
        simp [hv]
      unfold entryFromArgs
      rw [if_neg hcnd]
      exact ⟨rfl, rfl⟩

theorem c10_logger_entry_witness :
    c10Args.getLast?
      = some (JsVal.vobj [(lit "severity", JsVal.vstr (lit "CRITICAL")),
          (lit "foo", JsVal.vstr (lit "bar"))] true) ∧
    (debug c10Fmt c10Args).severity = lit "DEBUG" ∧
    (entryFromArgs c10Fmt (lit "DEBUG") c10Args).message = c10Fmt c10Args.dropLast ∧
    (entryFromArgs c10Fmt (lit "DEBUG") c10Args).jsonFields
      = [(lit "severity", JsVal.vstr (lit "CRITICAL")),
          (lit "foo", JsVal.vstr (lit "bar"))].filter
            (fun pr => !(pr.1 == lit "severity" || pr.1 == lit "message")) := by
  have hl : c10Args.getLast?
      = some (JsVal.vobj [(lit "severity", JsVal.vstr (lit "CRITICAL")),
          (lit "foo", JsVal.vstr (lit "bar"))] true) := by rfl
  obtain ⟨hd, -, -, -, -, -, hpop, -⟩ := c10_logger_entry c10Fmt (lit "DEBUG") c10Args
  obtain ⟨hm, hj⟩ := hpop _ hl
  exact ⟨hl, hd, hm, hj⟩

/-! ## Fidelity checks against the behaviours pinned by the test suite -/

/-- The basic-path test vector: captures a and b, wildcard uncaptured. -/
theorem test_makeParams_basic :
    makeParams ⟨lit "match_a/something/else/nothing/end/match_b", lit "my-instance"⟩
      c1Pat ⟨[Segment.wildcard], lit "*"⟩
      = Except.ok [(lit "a", lit "match_a"), (lit "b", lit "match_b")] := by rfl

/-- The multi-segment capture test vector: the multi capture records the
joined span, and the instance capture is merged in after. -/
theorem test_makeParams_multi :
    makeParams ⟨c2Cand, lit "my-instance"⟩ c2Pat
      ⟨[Segment.capture (lit "inst")], lit "\x7binst\x7d"⟩
      = Except.ok [(lit "path", lit "is/a/thing"), (lit "a", lit "match_a"),
          (lit "b", lit "match_b"), (lit "inst", lit "my-instance")] := by rfl

/-- The multi-segment wildcard test vector: the span is consumed
without being captured. -/
theorem test_makeParams_multiWildcard :
    pmatch ⟨[Segment.literal (lit "something"), Segment.multiWildcard,
        Segment.literal (lit "else"), Segment.capture (lit "a"), Segment.literal (lit "hello"),
        Segment.capture (lit "b"), Segment.literal (lit "world")],
        lit "something/**/else/\x7ba\x7d/hello/\x7bb\x7d/world"⟩ c2Cand
      = some [(lit "a", lit "match_a"), (lit "b", lit "match_b")] := by rfl

/-- The bare-string getOpts test vector. -/
theorem test_getOpts_string :
    getOpts (ReferenceOrOpts.path (lit "/foo/\x7bbar\x7d/"))
      = Except.ok ⟨lit "foo/\x7bbar\x7d", ['*'], emptyOpts⟩ := by rfl

/-- The options-object getOpts test vector. -/
theorem test_getOpts_object :
    getOpts (ReferenceOrOpts.options
        ⟨lit "/foo/\x7bbar\x7d/", some (lit "\x7binst\x7d"),
          ⟨some (RegionSpec.one (lit "us-central1")), none, []⟩⟩)
      = Except.ok ⟨lit "foo/\x7bbar\x7d", lit "\x7binst\x7d",
          ⟨some (RegionSpec.one (lit "us-central1")), none, []⟩⟩ := by rfl

/-- The instance-wildcard makeEndpoint test vector: the instance pattern
goes under the path-pattern filters, region wrapped, labels copied. -/
theorem test_makeEndpoint_wildcard :
    makeEndpoint writtenEventType
        ⟨some (RegionSpec.one (lit "us-central1")), some [(lit "1", lit "2")], []⟩
        ⟨[Segment.literal (lit "foo"), Segment.literal (lit "bar")], lit "foo/bar"⟩
        ⟨[Segment.capture (lit "inst")], lit "\x7binst\x7d"⟩
      = ⟨lit "gcfv2", some [lit "us-central1"], [(lit "1", lit "2")], [],
          ⟨writtenEventType, [],
            [(lit "ref", lit "foo/bar"), (lit "instance", lit "\x7binst\x7d")], false⟩⟩ := by rfl

/-- The literal-instance makeEndpoint test vector: the instance goes under
the exact-match filters instead. -/
theorem test_makeEndpoint_literal :
    makeEndpoint writtenEventType
        ⟨some (RegionSpec.one (lit "us-central1")), some [(lit "1", lit "2")], []⟩
        ⟨[Segment.literal (lit "foo"), Segment.literal (lit "bar")], lit "foo/bar"⟩
        ⟨[Segment.literal (lit "my-instance")], lit "my-instance"⟩
      = ⟨lit "gcfv2", some [lit "us-central1"], [(lit "1", lit "2")], [],
          ⟨writtenEventType, [(lit "instance", lit "my-instance")],
            [(lit "ref", lit "foo/bar")], false⟩⟩ := by rfl

/-- The complex onChangedOperation test vector: trimmed ref, literal
instance under exact filters, pass-through fields kept. -/
theorem test_onChangedOperation_complex :
    onChangedOperation writtenEventType
        (ReferenceOrOpts.options ⟨lit "/foo/\x7bpath=**\x7d/\x7bbar\x7d/",
          some (lit "my-instance"),
          ⟨some (RegionSpec.one (lit "us-central1")), none,
            [(lit "cpu", OptVal.s (lit "gcf_gen1")), (lit "minInstances", OptVal.n 2)]⟩⟩)
      = Except.ok ⟨lit "gcfv2", some [lit "us-central1"], [],
          [(lit "cpu", OptVal.s (lit "gcf_gen1")), (lit "minInstances", OptVal.n 2)],
          ⟨writtenEventType, [(lit "instance", lit "my-instance")],
            [(lit "ref", lit "foo/\x7bpath=**\x7d/\x7bbar\x7d")], false⟩⟩ := by rfl

end FirebaseDB
